import Mathlib

/-!
Verification of the delivery-performance and late-order analytics engine of
`dashboard.py` against its specification.

Shallow embedding conventions:
* Timestamps are integers counting seconds; one day is 86400 seconds.
  A calendar date is the integer day number, so midnight of day `d` is the
  timestamp `d * 86400` and the calendar date of a timestamp `t` is
  `Int.fdiv t 86400` (floor division, matching how dates relate to
  timestamps for all signs).
* pandas `NaT` (a missing / unparseable date) is `Option.none`; a pandas
  `DataFrame` is a `List` of rows; pandas `NaN` results of aggregations
  over empty frames are `Option.none`.
* `order_id` values (strings in the data) are modelled as naturals; only
  their equality and total order matter to the program and the claims.
* pandas `Timedelta.days` is floor division of the timedelta by one day,
  hence `Int.fdiv` here.
* Monetary values, rates and review scores entering means are exact
  rationals `ℚ`.
-/

/-- A row of `orders_dataset.csv` after `read_csv(parse_dates=...)`
(dashboard.py line 26): each date column is either a parsed timestamp or
`NaT` (`none`). -/
structure RawOrder where
  order_id : Nat
  purchase_time : Option Int
  delivered_time : Option Int
  estimated_delivery_time : Option Int
deriving DecidableEq

/-- A row of `valid_orders` (dashboard.py line 39): all three date columns
are present after `dropna`. -/
structure ValidOrder where
  order_id : Nat
  purchase_time : Int
  delivered_time : Int
  estimated_delivery_time : Int
deriving DecidableEq

/-- `valid_orders = orders.dropna(subset=[...])` (dashboard.py line 39):
keep exactly the rows whose three date columns are all present. -/
def valid_orders (orders : List RawOrder) : List ValidOrder :=
  orders.filterMap fun o =>
    match o.purchase_time, o.delivered_time, o.estimated_delivery_time with
    | some p, some d, some e => some ⟨o.order_id, p, d, e⟩
    | _, _, _ => none

/-- `delivery_days` (dashboard.py line 42):
`(delivered - purchase).dt.days`, i.e. floor division of the timedelta in
seconds by one day. -/
def delivery_days (o : ValidOrder) : Int :=
  Int.fdiv (o.delivered_time - o.purchase_time) 86400

/-- `is_late` (dashboard.py line 43): delivered strictly after the
estimated delivery date. -/
def is_late (o : ValidOrder) : Bool :=
  decide (o.estimated_delivery_time < o.delivered_time)

/-- `days_late` (dashboard.py lines 44-46): `np.where(is_late,
(delivered - estimated).dt.days, 0)`. -/
def days_late (o : ValidOrder) : Int :=
  if is_late o then Int.fdiv (o.delivered_time - o.estimated_delivery_time) 86400 else 0

/-- Calendar date (integer day number) of a timestamp. -/
def dateOf (t : Int) : Int := Int.fdiv t 86400

/-- `delivery_days` as the spec's words describe it for claim C5:
"truncation toward zero" of the day count (`Int.div` truncates toward
zero).  Written only to be compared with the source's `delivery_days`. -/
def delivery_days_truncated (o : ValidOrder) : Int :=
  Int.tdiv (o.delivered_time - o.purchase_time) 86400

/-- A row of `order_payments_dataset.csv` (dashboard.py line 27). -/
structure Payment where
  order_id : Nat
  payment_type : String
  payment_value : ℚ
deriving DecidableEq

/-- A row of `order_reviews_dataset.csv` (dashboard.py line 28). -/
structure Review where
  order_id : Nat
  review_score : Int
deriving DecidableEq

/-- The date-range filter (dashboard.py lines 55-58): the sidebar returns
two calendar dates `start_day` and `end_day`; the code compares the
purchase timestamp with `pd.to_datetime(start)` (midnight of `start_day`)
and `pd.to_datetime(end) + timedelta(days=1)` (midnight of the day after
`end_day`), both comparisons inclusive. -/
def filtered_orders (start_day end_day : Int) (vs : List ValidOrder) :
    List ValidOrder :=
  vs.filter fun o =>
    decide (start_day * 86400 ≤ o.purchase_time) &&
    decide (o.purchase_time ≤ (end_day + 1) * 86400)

/-- `orders_with_payments = filtered_orders.merge(payments, on="order_id",
how="inner")` (dashboard.py line 63).  A pandas inner merge preserves the
order of the left keys; for each left row, the matching right rows appear
in their own order. -/
def orders_with_payments (os : List ValidOrder) (ps : List Payment) :
    List (ValidOrder × Payment) :=
  os.flatMap fun o =>
    (ps.filter fun p => p.order_id == o.order_id).map fun p => (o, p)

/-- The payment-method filter (dashboard.py lines 70-75): the sentinel
string "All" keeps every row, any other selection keeps the rows of that
`payment_type`. -/
def filtered_payments (selected : String) (owp : List (ValidOrder × Payment)) :
    List (ValidOrder × Payment) :=
  if selected == "All" then owp
  else owp.filter fun x => x.2.payment_type == selected

/-- `delivery_reviews = filtered_orders.merge(reviews, on="order_id",
how="inner")` (dashboard.py line 143). -/
def delivery_reviews (os : List ValidOrder) (rs : List Review) :
    List (ValidOrder × Review) :=
  os.flatMap fun o =>
    (rs.filter fun r => r.order_id == o.order_id).map fun r => (o, r)

/-- `on_time_rate = (filtered_orders["is_late"] == False).mean() * 100`
(dashboard.py line 148): the fraction of rows that are not late, as a
percentage.  The pandas mean of an empty column is `NaN`, modelled as
`none`. -/
def on_time_rate (vs : List ValidOrder) : Option ℚ :=
  if vs.isEmpty then none
  else some ((vs.countP (fun o => !is_late o) : ℚ) / (vs.length : ℚ) * 100)

/-- `avg_review = delivery_reviews["review_score"].mean()`
(dashboard.py line 225), over the inner join of the filtered orders with
the reviews.  The mean of an empty column is `NaN`, modelled as `none`. -/
def avg_review (drs : List (ValidOrder × Review)) : Option ℚ :=
  if drs.isEmpty then none
  else some (((drs.map fun x => x.2.review_score).sum : ℚ) / (drs.length : ℚ))

/-- The average review score as the spec's words describe it for claim C7:
the arithmetic mean of `review_score` over ALL supplied reviews, with no
join against any order set.  Written only to be compared with the source's
`avg_review`. -/
def averageReviewScore_allReviews (rs : List Review) : Option ℚ :=
  if rs.isEmpty then none
  else some (((rs.map fun r => r.review_score).sum : ℚ) / (rs.length : ℚ))

/-! ### Sorting, as pandas performs it

`DataFrame.sort_values(by=k, ascending=False)` (and the sort inside
`Series.value_counts`) computes a stable ascending argsort of the key and
then reverses it (pandas `nargsort`: `indexer = argsort(kind); if not
ascending: indexer = indexer[::-1]`; numpy's introsort is plain insertion
sort below 16 elements, which is stable, so on the small inputs used here
the descending order is exactly the reverse of the stable ascending
order).  We embed this as a stable insertion sort on an integer key
followed by `List.reverse`. -/

/-- Insert into an ascending-by-key list, after any equal keys (stable). -/
def insertByKey {α : Type} (key : α → Int) (a : α) : List α → List α
  | [] => [a]
  | b :: l => if key a ≤ key b then a :: b :: l else b :: insertByKey key a l

/-- Stable insertion sort, ascending by key. -/
def sortAscByKey {α : Type} (key : α → Int) : List α → List α
  | [] => []
  | a :: l => insertByKey key a (sortAscByKey key l)

/-- pandas `sort_values(ascending=False)` on one key: the reverse of the
stable ascending sort. -/
def sort_values_desc {α : Type} (key : α → Int) (l : List α) : List α :=
  (sortAscByKey key l).reverse

/-- `late_orders` (dashboard.py lines 202-203): the late rows of
`filtered_orders`, sorted by `days_late` descending.  (The source also
projects to the three displayed columns, which changes neither the rows
nor their order.) -/
def late_orders (fos : List ValidOrder) : List ValidOrder :=
  sort_values_desc (fun o => days_late o) (fos.filter fun o => is_late o)

/-- `late_orders.head(n)` (dashboard.py line 215, with `n = 10` in the
source): the first `n` of the late orders ranked by `days_late`. -/
def topLateOrders (fos : List ValidOrder) (n : Nat) : List ValidOrder :=
  (late_orders fos).take n

/-! ### Counting and the payment distribution -/

/-- Add one observation of `t` to a running count table, keeping keys in
order of first appearance (as the pandas `value_counts` hashtable does). -/
def bumpCount (t : String) : List (String × Nat) → List (String × Nat)
  | [] => [(t, 1)]
  | kv :: rest =>
      if kv.1 == t then (kv.1, kv.2 + 1) :: rest else kv :: bumpCount t rest

/-- Count table of a column, keys in order of first appearance. -/
def countsList (l : List String) : List (String × Nat) :=
  l.foldl (fun acc t => bumpCount t acc) []

/-- `value_counts()` on a column (dashboard.py line 84): per-value counts,
sorted by count descending (pandas: stable ascending sort of the
first-appearance count table, then reversed). -/
def value_counts (l : List String) : List (String × Nat) :=
  sort_values_desc (fun kv => (kv.2 : Int)) (countsList l)

/-- numpy's round-half-to-even on a rational, to an integer. -/
def roundHalfEven (q : ℚ) : Int :=
  let f := Int.floor q
  let r := q - (f : ℚ)
  if r < 1/2 then f
  else if 1/2 < r then f + 1
  else if Even f then f else f + 1

/-- `.round(1)` (dashboard.py line 89): round to one decimal place,
half to even. -/
def roundTo1 (q : ℚ) : ℚ := (roundHalfEven (q * 10) : ℚ) / 10

/-- `payment_data` (dashboard.py lines 84-89): `value_counts()` of the
`payment_type` column of `orders_with_payments`, with
`total_payments = payment_data["count"].sum()` and a percentage column
`(count / total_payments * 100).round(1)`.  Each output row is
`(payment_type, count, percentage)`. -/
def payment_data (types : List String) : List (String × Nat × ℚ) :=
  let vc := value_counts types
  let total_payments : ℚ := ((vc.map fun kv => kv.2).sum : Nat)
  vc.map fun kv => (kv.1, kv.2, roundTo1 ((kv.2 : ℚ) / total_payments * 100))

/-! ### Helper lemmas about the sort -/

theorem insertByKey_perm {α : Type} (key : α → Int) (a : α) (l : List α) :
    (insertByKey key a l).Perm (a :: l) := by
  induction l with
  | nil => simp [insertByKey]
  | cons b l ih =>
      rw [insertByKey]
      by_cases h : key a ≤ key b
      · rw [if_pos h]
      · rw [if_neg h]
        exact (ih.cons b).trans (List.Perm.swap a b l)

theorem sortAscByKey_perm {α : Type} (key : α → Int) (l : List α) :
    (sortAscByKey key l).Perm l := by
  induction l with
  | nil => simp [sortAscByKey]
  | cons a l ih =>
      exact (insertByKey_perm key a (sortAscByKey key l)).trans (ih.cons a)

theorem insertByKey_pairwise {α : Type} (key : α → Int) (a : α) (l : List α)
    (h : l.Pairwise fun x y => key x ≤ key y) :
    (insertByKey key a l).Pairwise fun x y => key x ≤ key y := by
  induction l with
  | nil => simp [insertByKey]
  | cons b l ih =>
      rw [List.pairwise_cons] at h
      rw [insertByKey]
      by_cases hab : key a ≤ key b
      · rw [if_pos hab]
        refine List.pairwise_cons.mpr ⟨?_, List.pairwise_cons.mpr h⟩
        intro x hx
        rcases List.mem_cons.mp hx with hx | hx
        · exact hx ▸ hab
        · exact le_trans hab (h.1 x hx)
      · rw [if_neg hab]
        refine List.pairwise_cons.mpr ⟨?_, ih h.2⟩
        intro x hx
        have hx' : x ∈ a :: l := (insertByKey_perm key a l).mem_iff.mp hx
        rcases List.mem_cons.mp hx' with hx' | hx'
        · subst hx'; omega
        · exact h.1 x hx'

theorem sortAscByKey_pairwise {α : Type} (key : α → Int) (l : List α) :
    (sortAscByKey key l).Pairwise fun x y => key x ≤ key y := by
  induction l with
  | nil => simp [sortAscByKey]
  | cons a l ih => exact insertByKey_pairwise key a _ ih

theorem sort_values_desc_perm {α : Type} (key : α → Int) (l : List α) :
    (sort_values_desc key l).Perm l := by
  exact (List.reverse_perm _).trans (sortAscByKey_perm key l)

theorem sort_values_desc_pairwise {α : Type} (key : α → Int) (l : List α) :
    (sort_values_desc key l).Pairwise fun x y => key y ≤ key x := by
  rw [sort_values_desc, List.pairwise_reverse]
  exact sortAscByKey_pairwise key l

/-! ### Helper lemmas about the count table -/

theorem bumpCount_sum (t : String) (acc : List (String × Nat)) :
    ((bumpCount t acc).map fun kv => kv.2).sum
      = ((acc.map fun kv => kv.2).sum) + 1 := by
  induction acc with
  | nil => simp [bumpCount]
  | cons kv rest ih =>
      rw [bumpCount]
      by_cases h : kv.1 == t
      · rw [if_pos h]; simp; omega
      · rw [if_neg h]; simp [ih]; omega

theorem countsList_sum_aux (l : List String) (acc : List (String × Nat)) :
    ((l.foldl (fun acc t => bumpCount t acc) acc).map fun kv => kv.2).sum
      = ((acc.map fun kv => kv.2).sum) + l.length := by
  induction l generalizing acc with
  | nil => simp
  | cons t l ih =>
      rw [List.foldl_cons, ih, bumpCount_sum]
      simp; omega

theorem countsList_sum (l : List String) :
    ((countsList l).map fun kv => kv.2).sum = l.length := by
  rw [countsList, countsList_sum_aux]
  simp

theorem value_counts_sum (l : List String) :
    ((value_counts l).map fun kv => kv.2).sum = l.length := by
  rw [← countsList_sum l]
  exact ((sort_values_desc_perm _ (countsList l)).map fun kv => kv.2).sum_eq

/-! ### Helper lemmas about the inner joins -/

theorem filter_or_perm {α : Type} (p q : α → Bool) (l : List α)
    (h : ∀ a ∈ l, ¬(p a = true ∧ q a = true)) :
    (l.filter fun a => p a || q a).Perm (l.filter p ++ l.filter q) := by
  induction l with
  | nil => simp
  | cons a l ih =>
      have ht : ∀ b ∈ l, ¬(p b = true ∧ q b = true) :=
        fun b hb => h b (List.mem_cons_of_mem a hb)
      by_cases hp : p a = true
      · have hq : q a = false := by
          have := h a (List.mem_cons_self a l)
          revert this
          cases q a <;> simp [hp]
        rw [List.filter_cons_of_pos (by simp [hp]),
          List.filter_cons_of_pos hp, List.filter_cons_of_neg (by simp [hq]),
          List.cons_append]
        exact (ih ht).cons a
      · have hp' : p a = false := by revert hp; cases p a <;> simp
        by_cases hq : q a = true
        · rw [List.filter_cons_of_pos (by simp [hp', hq]),
            List.filter_cons_of_neg (by simp [hp']), List.filter_cons_of_pos hq]
          exact ((ih ht).cons a).trans List.perm_middle.symm
        · have hq' : q a = false := by revert hq; cases q a <;> simp
          rw [List.filter_cons_of_neg (by simp [hp', hq']),
            List.filter_cons_of_neg (by simp [hp']),
            List.filter_cons_of_neg (by simp [hq'])]
          exact ih ht

theorem delivery_reviews_snd_perm (os : List ValidOrder) (rs : List Review)
    (h : (os.map fun o => o.order_id).Nodup) :
    ((delivery_reviews os rs).map fun x => x.2).Perm
      (rs.filter fun r => os.any fun o => r.order_id == o.order_id) := by
  induction os with
  | nil => simp [delivery_reviews]
  | cons o os ih =>
      rw [List.map_cons, List.nodup_cons] at h
      have hperm := ih h.2
      have hstep :
          ((delivery_reviews (o :: os) rs).map fun x => x.2)
            = (rs.filter fun r => r.order_id == o.order_id)
              ++ ((delivery_reviews os rs).map fun x => x.2) := by
        simp only [delivery_reviews, List.flatMap_cons, List.map_append, List.map_map]
        congr 1
        simp
      rw [hstep]
      have hdisj : ∀ r ∈ rs,
          ¬((r.order_id == o.order_id) = true ∧
            (os.any fun o' => r.order_id == o'.order_id) = true) := by
        intro r _ ⟨h1, h2⟩
        obtain ⟨o', ho', h2'⟩ := List.any_eq_true.mp h2
        apply h.1
        have e1 : r.order_id = o.order_id := by simpa using h1
        have e2 : r.order_id = o'.order_id := by simpa using h2'
        rw [← e1, e2]
        exact List.mem_map.mpr ⟨o', ho', rfl⟩
      have hor := filter_or_perm (fun r => r.order_id == o.order_id)
        (fun r => os.any fun o' => r.order_id == o'.order_id) rs hdisj
      have hgoal : (rs.filter fun r => (o :: os).any fun o' => r.order_id == o'.order_id)
          = rs.filter fun r => (r.order_id == o.order_id)
              || (os.any fun o' => r.order_id == o'.order_id) := by
        simp [List.any_cons]
      rw [hgoal]
      exact ((List.Perm.refl _).append hperm).trans hor.symm

theorem mem_valid_orders {o : ValidOrder} {raw : List RawOrder}
    (h : o ∈ valid_orders raw) :
    ∃ r ∈ raw, r.order_id = o.order_id ∧ r.purchase_time = some o.purchase_time ∧
      r.delivered_time = some o.delivered_time ∧
      r.estimated_delivery_time = some o.estimated_delivery_time := by
  rw [valid_orders] at h
  obtain ⟨r, hr, hf⟩ := List.mem_filterMap.mp h
  refine ⟨r, hr, ?_⟩
  rcases hp : r.purchase_time with _ | p <;>
    rcases hd : r.delivered_time with _ | d <;>
    rcases he : r.estimated_delivery_time with _ | e <;>
    rw [hp, hd, he] at hf <;> simp only [Option.some.injEq, reduceCtorEq] at hf
  · subst hf
    exact ⟨rfl, rfl, rfl, rfl⟩

/-! ### Helper lemmas about rounding -/

theorem roundHalfEven_close (q : ℚ) : |((roundHalfEven q : ℤ) : ℚ) - q| ≤ 1/2 := by
  rw [roundHalfEven]
  have h0 : (0:ℚ) ≤ q - (Int.floor q : ℚ) := by
    have := Int.floor_le q
    linarith
  have h1 : q - (Int.floor q : ℚ) < 1 := by
    have := Int.lt_floor_add_one q
    linarith
  by_cases hlt : q - (Int.floor q : ℚ) < 1/2
  · rw [if_pos hlt, abs_le]
    constructor <;> linarith
  · rw [if_neg hlt]
    by_cases hgt : 1/2 < q - (Int.floor q : ℚ)
    · rw [if_pos hgt, abs_le]
      push_cast
      constructor <;> linarith
    · have heq : q - (Int.floor q : ℚ) = 1/2 := by linarith
      rw [if_neg hgt]
      by_cases hev : Even (Int.floor q)
      · rw [if_pos hev, abs_le]
        constructor <;> linarith
      · rw [if_neg hev, abs_le]
        push_cast
        constructor <;> linarith

theorem roundTo1_close (q : ℚ) : |roundTo1 q - q| ≤ 1/20 := by
  rw [roundTo1]
  have h := roundHalfEven_close (q * 10)
  have h10 : ((roundHalfEven (q * 10) : ℤ) : ℚ) / 10 - q
      = (((roundHalfEven (q * 10) : ℤ) : ℚ) - q * 10) / 10 := by ring
  rw [h10, abs_div, abs_of_pos (show (0:ℚ) < 10 by norm_num)]
  linarith

theorem sum_map_roundTo1_close (xs : List ℚ) :
    |(xs.map roundTo1).sum - xs.sum| ≤ (xs.length : ℚ) / 20 := by
  induction xs with
  | nil => simp
  | cons x xs ih =>
      have hx := roundTo1_close x
      have habs : |roundTo1 x + (xs.map roundTo1).sum - (x + xs.sum)|
          ≤ |roundTo1 x - x| + |(xs.map roundTo1).sum - xs.sum| := by
        have := abs_add (roundTo1 x - x) ((xs.map roundTo1).sum - xs.sum)
        have harr : roundTo1 x + (xs.map roundTo1).sum - (x + xs.sum)
            = (roundTo1 x - x) + ((xs.map roundTo1).sum - xs.sum) := by ring
        rw [harr]
        exact this
      simp only [List.map_cons, List.sum_cons, List.length_cons]
      push_cast
      have : (xs.length : ℚ) / 20 + 1/20 = ((xs.length : ℚ) + 1) / 20 := by ring
      linarith



theorem map_div_mul_sum (l : List Nat) (T : ℚ) (hT : T ≠ 0)
    (h : ((l.sum : Nat) : ℚ) = T) :
    (l.map fun c : Nat => (c : ℚ) / T * 100).sum = 100 := by
  have h1 : ∀ l' : List Nat, (l'.map fun c : Nat => (c : ℚ) / T * 100).sum
      = ((l'.sum : ℚ)) * (100 / T) := by
    intro l'
    induction l' with
    | nil => simp
    | cons c l' ih =>
        simp only [List.map_cons, List.sum_cons, ih]
        push_cast
        ring
  rw [h1 l, h]
  field_simp

/-! ### The claims -/

/-- C1 counterexample: an order delivered one hour after its estimated
delivery time is late (`is_late = true`) but has `days_late = 0`, because
`(delivered - estimated).dt.days` floors the sub-day exceedance to zero;
so `days_late > 0` is not equivalent to `is_late`. -/
theorem days_late_pos_iff_late_cex :
    ¬(0 < days_late ⟨1, 0, 3600, 0⟩ ↔ is_late ⟨1, 0, 3600, 0⟩ = true) ∧
    is_late ⟨1, 0, 3600, 0⟩ = true ∧ days_late ⟨1, 0, 3600, 0⟩ = 0 := by
  decide

/-- C1 (amended): `days_late` is never negative, `days_late > 0` implies
`is_late`, and a late order is guaranteed `days_late > 0` only when the
exceedance is at least one full day. -/
theorem days_late_nonneg_pos_imp_late (o : ValidOrder) :
    0 ≤ days_late o ∧ (0 < days_late o → is_late o = true) ∧
    (is_late o = true → o.estimated_delivery_time + 86400 ≤ o.delivered_time →
      0 < days_late o) := by
  have hl : is_late o = true ↔ o.estimated_delivery_time < o.delivered_time := by
    rw [is_late]; simp
  by_cases h : o.estimated_delivery_time < o.delivered_time
  · have hil : is_late o = true := hl.mpr h
    have hd : days_late o = (o.delivered_time - o.estimated_delivery_time) / 86400 := by
      rw [days_late, if_pos hil, Int.fdiv_eq_ediv _ (by norm_num)]
    rw [hd]
    refine ⟨by omega, fun _ => hil, fun _ hge => by omega⟩
  · have hil : is_late o = false := by
      revert h
      rw [is_late]
      simp
    have hd : days_late o = 0 := by
      rw [days_late, hil]
      simp
    rw [hd]
    exact ⟨le_refl 0, by omega, fun hlate => absurd (hl.mp hlate) h⟩

/-- C1 witness: a two-days-late order gets a positive `days_late` through
the amended theorem. -/
theorem days_late_nonneg_pos_imp_late_w : 0 < days_late ⟨2, 0, 2*86400, 0⟩ :=
  (days_late_nonneg_pos_imp_late ⟨2, 0, 2*86400, 0⟩).2.2 (by decide) (by decide)

/-- C5 counterexample: an order delivered one hour BEFORE its purchase
time has `delivery_days = -1` (pandas `.dt.days` floors toward −∞), not
the `0` that truncation toward zero would give. -/
theorem delivery_days_not_truncation_cex :
    delivery_days ⟨1, 0, -3600, 0⟩ ≠ delivery_days_truncated ⟨1, 0, -3600, 0⟩ ∧
    delivery_days ⟨1, 0, -3600, 0⟩ = -1 ∧
    delivery_days_truncated ⟨1, 0, -3600, 0⟩ = 0 := by
  decide

/-- C5 (amended): `delivery_days` is the FLOOR (toward −∞, not toward
zero) of the whole-day count from purchase to delivery, and a delivery
before the purchase always yields a strictly negative value (preserved,
never clamped). -/
theorem delivery_days_floor (o : ValidOrder) :
    delivery_days o * 86400 ≤ o.delivered_time - o.purchase_time ∧
    o.delivered_time - o.purchase_time < (delivery_days o + 1) * 86400 ∧
    (o.delivered_time < o.purchase_time → delivery_days o < 0) := by
  rw [delivery_days, Int.fdiv_eq_ediv _ (by norm_num)]
  omega

/-- C5 witness: an order delivered ten seconds before purchase has a
negative `delivery_days` through the amended theorem. -/
theorem delivery_days_floor_w : delivery_days ⟨1, 10, 0, 0⟩ < 0 :=
  (delivery_days_floor ⟨1, 10, 0, 0⟩).2.2 (by decide)

/-- C3 (code bug): an order purchased exactly at midnight of the day
AFTER the end bound is kept by the range filter, although its calendar
date (day 1) is outside the selected interval [0, 0]; the
`+ timedelta(days=1)` with an inclusive `<=` comparison admits one extra
instant. -/
theorem filtered_orders_includes_midnight_after_end :
    filtered_orders 0 0 [⟨1, 86400, 86400, 86400⟩] = [⟨1, 86400, 86400, 86400⟩] ∧
    dateOf 86400 = 1 ∧ ¬(dateOf 86400 ≤ 0) := by
  decide

/-- C4 (code bug): with start day 1 > end day 0 the filter still keeps an
order purchased exactly at midnight of day 1, because the code interval
`[start*86400, (end+1)*86400]` degenerates to a single point instead of
the empty set. -/
theorem filtered_orders_start_gt_end_nonempty :
    filtered_orders 1 0 [⟨1, 86400, 86400, 86400⟩] = [⟨1, 86400, 86400, 86400⟩] ∧
    filtered_orders 1 0 [⟨1, 86400, 86400, 86400⟩] ≠ [] := by
  decide

/-- C2: the on-time rate over the eligible (date-complete, range-filtered)
orders is undefined (the `NaN` of an empty mean, modelled `none`) exactly
when that set is empty, and otherwise lies in [0, 100]. -/
theorem on_time_rate_defined_iff_bounds (orders : List RawOrder) (s e : Int) :
    (on_time_rate (filtered_orders s e (valid_orders orders)) = none
      ↔ filtered_orders s e (valid_orders orders) = []) ∧
    ∀ r, on_time_rate (filtered_orders s e (valid_orders orders)) = some r →
      0 ≤ r ∧ r ≤ 100 := by
  set vs := filtered_orders s e (valid_orders orders) with hvs
  constructor
  · rw [on_time_rate]
    by_cases h : vs.isEmpty
    · rw [if_pos h]
      simp only [true_iff]
      exact List.isEmpty_iff.mp h
    · rw [if_neg h]
      simp only [reduceCtorEq, false_iff]
      intro hnil
      exact h (by rw [hnil]; rfl)
  · intro r hr
    rw [on_time_rate] at hr
    by_cases h : vs.isEmpty
    · rw [if_pos h] at hr; cases hr
    · rw [if_neg h] at hr
      have hr' : ((vs.countP fun o => !is_late o : ℚ)) / (vs.length : ℚ) * 100 = r :=
        Option.some.inj hr
      have hlen : 0 < vs.length := by
        cases hl : vs with
        | nil => rw [hl] at h; exact absurd rfl h
        | cons a l => simp
      have hlenq : (0:ℚ) < (vs.length : ℚ) := by exact_mod_cast hlen
      have hcount : (vs.countP fun o => !is_late o) ≤ vs.length :=
        List.countP_le_length _
      have hcountq : ((vs.countP fun o => !is_late o : ℚ)) ≤ (vs.length : ℚ) := by
        exact_mod_cast hcount
      have hcount0 : (0:ℚ) ≤ ((vs.countP fun o => !is_late o : ℚ)) := by positivity
      constructor
      · rw [← hr']
        positivity
      · rw [← hr', div_mul_eq_mul_div, div_le_iff₀ hlenq]
        nlinarith

/-- C2 witness: a concrete two-order set (one on time, one late) has an
on-time rate of 50, which the theorem places in [0, 100]. -/
theorem on_time_rate_defined_iff_bounds_w : 0 ≤ (50:ℚ) ∧ (50:ℚ) ≤ 100 :=
  (on_time_rate_defined_iff_bounds
    [⟨1, some 0, some 0, some 10⟩, ⟨2, some 0, some 20, some 10⟩] 0 0).2 50 (by
      have h : filtered_orders 0 0
          (valid_orders [⟨1, some 0, some 0, some 10⟩, ⟨2, some 0, some 20, some 10⟩])
          = [⟨1, 0, 0, 10⟩, ⟨2, 0, 20, 10⟩] := by decide
      have hc : List.countP (fun o => !is_late o)
          [(⟨1, 0, 0, 10⟩ : ValidOrder), ⟨2, 0, 20, 10⟩] = 1 := by decide
      rw [h, on_time_rate]
      norm_num [hc])

/-- C6 counterexample: an order whose `delivered_time` is missing is
dropped by `dropna`, so its payment row never reaches
`orders_with_payments` and the payment aggregates are empty — the order
can NOT appear in the payment aggregates, contrary to the claim. -/
theorem missing_date_absent_from_payment_aggregates_cex :
    valid_orders [⟨1, some 0, none, some 0⟩] = [] ∧
    orders_with_payments
      (filtered_orders 0 0 (valid_orders [⟨1, some 0, none, some 0⟩]))
      [⟨1, "credit", 10⟩] = [] ∧
    payment_data ((orders_with_payments
      (filtered_orders 0 0 (valid_orders [⟨1, some 0, none, some 0⟩]))
      [⟨1, "credit", 10⟩]).map fun x => x.2.payment_type) = [] := by
  decide

/-- C6 (amended): an order with a missing date is excluded from the
delivery-performance aggregates AND from the payment aggregates: every
row of the range-filtered order set, and every merged order/payment row
feeding `payment_data`, comes from a raw order whose three dates are all
present. -/
theorem aggregates_only_complete_orders (raw : List RawOrder) (ps : List Payment)
    (s e : Int) :
    (∀ o ∈ filtered_orders s e (valid_orders raw),
      ∃ r ∈ raw, r.order_id = o.order_id ∧ r.purchase_time = some o.purchase_time ∧
        r.delivered_time = some o.delivered_time ∧
        r.estimated_delivery_time = some o.estimated_delivery_time) ∧
    (∀ x ∈ orders_with_payments (filtered_orders s e (valid_orders raw)) ps,
      ∃ r ∈ raw, r.order_id = x.1.order_id ∧ r.purchase_time = some x.1.purchase_time ∧
        r.delivered_time = some x.1.delivered_time ∧
        r.estimated_delivery_time = some x.1.estimated_delivery_time) := by
  have hfo : ∀ o ∈ filtered_orders s e (valid_orders raw),
      ∃ r ∈ raw, r.order_id = o.order_id ∧ r.purchase_time = some o.purchase_time ∧
        r.delivered_time = some o.delivered_time ∧
        r.estimated_delivery_time = some o.estimated_delivery_time := by
    intro o ho
    rw [filtered_orders] at ho
    exact mem_valid_orders (List.mem_filter.mp ho).1
  refine ⟨hfo, ?_⟩
  intro x hx
  rw [orders_with_payments] at hx
  obtain ⟨o, ho, hmem⟩ := List.mem_flatMap.mp hx
  obtain ⟨p, _, hxo⟩ := List.mem_map.mp hmem
  have hx1 : x.1 = o := by rw [← hxo]
  rw [hx1]
  exact hfo o ho

/-- C6 witness: with a complete raw order and a matching payment, the
theorem produces the raw source row of the merged pair. -/
theorem aggregates_only_complete_orders_w :
    ∃ r ∈ [(⟨1, some 0, some 0, some 0⟩ : RawOrder)],
      r.order_id = ((⟨1, 0, 0, 0⟩ : ValidOrder), (⟨1, "credit", 10⟩ : Payment)).1.order_id ∧
      r.purchase_time = some ((⟨1, 0, 0, 0⟩ : ValidOrder), (⟨1, "credit", 10⟩ : Payment)).1.purchase_time ∧
      r.delivered_time = some ((⟨1, 0, 0, 0⟩ : ValidOrder), (⟨1, "credit", 10⟩ : Payment)).1.delivered_time ∧
      r.estimated_delivery_time = some ((⟨1, 0, 0, 0⟩ : ValidOrder), (⟨1, "credit", 10⟩ : Payment)).1.estimated_delivery_time :=
  (aggregates_only_complete_orders [⟨1, some 0, some 0, some 0⟩] [⟨1, "credit", 10⟩] 0 0).2
    ((⟨1, 0, 0, 0⟩ : ValidOrder), (⟨1, "credit", 10⟩ : Payment)) (by decide)

/-- C7 counterexample: with one filtered order (id 1) and two reviews
(scores 5 for order 1 and 1 for order 2), the code's average is 5 — the
mean over the reviews that join to the filtered orders — while the mean
over ALL supplied reviews is 3. -/
theorem avg_review_not_all_reviews_cex :
    avg_review (delivery_reviews [⟨1, 0, 0, 0⟩] [⟨1, 5⟩, ⟨2, 1⟩]) = some 5 ∧
    averageReviewScore_allReviews [⟨1, 5⟩, ⟨2, 1⟩] = some 3 ∧
    avg_review (delivery_reviews [⟨1, 0, 0, 0⟩] [⟨1, 5⟩, ⟨2, 1⟩])
      ≠ averageReviewScore_allReviews [⟨1, 5⟩, ⟨2, 1⟩] := by
  have h : delivery_reviews [⟨1, 0, 0, 0⟩] [⟨1, 5⟩, ⟨2, 1⟩]
      = [(⟨1, 0, 0, 0⟩, ⟨1, 5⟩)] := by decide
  refine ⟨?_, ?_, ?_⟩
  · rw [h, avg_review]
    norm_num
  · rw [averageReviewScore_allReviews]
    norm_num
  · rw [h, avg_review, averageReviewScore_allReviews]
    norm_num

/-- C7 (amended): `avg_review` is the arithmetic mean of `review_score`
over exactly those reviews whose `order_id` matches a (date-complete,
range-filtered) order — not over all supplied reviews — provided the
order ids are distinct, as they are for a primary key. -/
theorem avg_review_over_joined (os : List ValidOrder) (rs : List Review)
    (h : (os.map fun o => o.order_id).Nodup) :
    avg_review (delivery_reviews os rs)
      = averageReviewScore_allReviews
          (rs.filter fun r => os.any fun o => r.order_id == o.order_id) := by
  have hperm := delivery_reviews_snd_perm os rs h
  set flt := rs.filter fun r => os.any fun o => r.order_id == o.order_id with hflt
  have hlen : (delivery_reviews os rs).length = flt.length := by
    have := hperm.length_eq
    rwa [List.length_map] at this
  have hsum : ((delivery_reviews os rs).map fun x => (x.2.review_score : ℚ)).sum
      = (flt.map fun r => (r.review_score : ℚ)).sum := by
    have hmm : (delivery_reviews os rs).map (fun x => (x.2.review_score : ℚ))
        = ((delivery_reviews os rs).map fun x => x.2).map fun r => (r.review_score : ℚ) := by
      rw [List.map_map]
      rfl
    rw [hmm]
    exact (hperm.map fun r => (r.review_score : ℚ)).sum_eq
  have hiff : (delivery_reviews os rs).isEmpty = true ↔ flt.isEmpty = true := by
    rw [List.isEmpty_iff_length_eq_zero, List.isEmpty_iff_length_eq_zero, hlen]
  rw [avg_review, averageReviewScore_allReviews]
  by_cases hemp : (delivery_reviews os rs).isEmpty
  · rw [if_pos hemp, if_pos (hiff.mp hemp)]
  · rw [if_neg hemp, if_neg (fun hcon => hemp (hiff.mpr hcon)), hsum, hlen]

/-- C7 witness: with the counterexample's order and review sets the
theorem equates the code's average with the mean over the joined
review set. -/
theorem avg_review_over_joined_w :
    avg_review (delivery_reviews [⟨1, 0, 0, 0⟩] [⟨1, 5⟩, ⟨2, 1⟩])
      = averageReviewScore_allReviews
          ([(⟨1, 5⟩ : Review), ⟨2, 1⟩].filter fun r =>
            [(⟨1, 0, 0, 0⟩ : ValidOrder)].any fun o => r.order_id == o.order_id) :=
  avg_review_over_joined [⟨1, 0, 0, 0⟩] [⟨1, 5⟩, ⟨2, 1⟩] (by decide)

/-- C8 (code bug): with "voucher" selected, `filtered_payments` keeps only
the voucher row, yet `payment_data` — which the source computes from
`orders_with_payments`, never from `filtered_payments` — still aggregates
BOTH payment types.  The selection never reaches any payment aggregate. -/
theorem payment_aggregates_ignore_type_filter :
    filtered_payments ("voucher")
      [(⟨1, 0, 0, 0⟩, ⟨1, "credit", 10⟩), (⟨2, 0, 0, 0⟩, ⟨2, "voucher", 50⟩)]
      = [(⟨2, 0, 0, 0⟩, ⟨2, "voucher", 50⟩)] ∧
    ([((⟨1, 0, 0, 0⟩ : ValidOrder), (⟨1, "credit", 10⟩ : Payment)),
      (⟨2, 0, 0, 0⟩, ⟨2, "voucher", 50⟩)].map fun x => x.2.payment_type)
      = ["credit", "voucher"] ∧
    payment_data ["credit", "voucher"]
      = [("voucher", 1, 50), ("credit", 1, 50)] := by
  have hvc : value_counts ["credit", "voucher"]
      = [("voucher", 1), ("credit", 1)] := by decide
  refine ⟨by decide, by decide, ?_⟩
  simp only [payment_data, hvc, List.map_cons, List.map_nil, List.sum_cons,
    List.sum_nil]
  norm_num [roundTo1, roundHalfEven, Int.fract]

/-- C9 counterexample: two late orders tie on `days_late = 5`; the code's
sort (reverse of a stable ascending sort, with no secondary key) emits
order id 2 before order id 1, so ties are NOT broken by `order_id`
ascending. -/
theorem topLateOrders_ties_not_by_id_cex :
    topLateOrders [⟨1, 0, 5*86400+10, 0⟩, ⟨2, 0, 5*86400+20, 0⟩] 10
      = [⟨2, 0, 5*86400+20, 0⟩, ⟨1, 0, 5*86400+10, 0⟩] ∧
    days_late ⟨1, 0, 5*86400+10, 0⟩ = days_late ⟨2, 0, 5*86400+20, 0⟩ ∧
    (1 : Nat) < 2 := by
  decide

/-- C9 (amended): `topLateOrders` returns exactly the late orders (the
ranked list is a permutation of the late subset), sorted non-increasing
by `days_late` (ties in the order the underlying sort produces, not by
`order_id`), truncated to length `min n (number of late orders)`; every
element it returns is late. -/
theorem topLateOrders_spec (fos : List ValidOrder) (n : Nat) :
    (topLateOrders fos n).length = min n (fos.filter fun o => is_late o).length ∧
    (topLateOrders fos n).Pairwise (fun a b => days_late b ≤ days_late a) ∧
    (late_orders fos).Perm (fos.filter fun o => is_late o) ∧
    ∀ o ∈ topLateOrders fos n, is_late o = true := by
  have hperm := sort_values_desc_perm (fun o => days_late o)
    (fos.filter fun o => is_late o)
  refine ⟨?_, ?_, hperm, ?_⟩
  · rw [topLateOrders, List.length_take, late_orders, hperm.length_eq]
  · have hsorted := sort_values_desc_pairwise (fun o => days_late o)
      (fos.filter fun o => is_late o)
    exact List.Pairwise.sublist (List.take_sublist n _) hsorted
  · intro o ho
    have hmem : o ∈ late_orders fos := List.mem_of_mem_take ho
    have hmem' : o ∈ fos.filter fun o => is_late o := hperm.mem_iff.mp hmem
    exact (List.mem_filter.mp hmem').2

/-- C9 witness: the counterexample's head element really is late, via the
amended theorem applied at that input and list position. -/
theorem topLateOrders_spec_w : is_late ⟨2, 0, 5*86400+20, 0⟩ = true :=
  (topLateOrders_spec [⟨1, 0, 5*86400+10, 0⟩, ⟨2, 0, 5*86400+20, 0⟩] 10).2.2.2
    ⟨2, 0, 5*86400+20, 0⟩ (by decide)

/-- C10 counterexample: six payment types with one row each all get the
rounded percentage 16.7, summing to 100.2 — outside the claimed ±0.1
epsilon — and the tied types come out in descending, not ascending,
order. -/
theorem payment_data_pct_sum_cex :
    ((payment_data ["a","b","c","d","e","f"]).map fun x => x.2.2).sum = 501/5 ∧
    ¬(|((payment_data ["a","b","c","d","e","f"]).map fun x => x.2.2).sum - 100|
        ≤ 1/10) ∧
    (payment_data ["a","b","c","d","e","f"]).map (fun x => x.1)
      = ["f","e","d","c","b","a"] := by
  have hvc : value_counts ["a","b","c","d","e","f"]
      = [("f",1),("e",1),("d",1),("c",1),("b",1),("a",1)] := by decide
  have hsum : ((payment_data ["a","b","c","d","e","f"]).map fun x => x.2.2).sum
      = 501/5 := by
    simp only [payment_data, hvc, List.map_cons, List.map_nil, List.sum_cons,
      List.sum_nil]
    norm_num [roundTo1, roundHalfEven, Int.fract]
  refine ⟨hsum, ?_, ?_⟩
  · rw [hsum, show (501:ℚ)/5 - 100 = 1/5 by norm_num,
      abs_of_pos (show (0:ℚ) < 1/5 by norm_num)]
    norm_num
  · simp only [payment_data, hvc, List.map_cons, List.map_nil]

/-- C10 (amended): the per-type counts sum exactly to the number of input
rows; the output is ordered by count non-increasing (ties in the order
the underlying sort produces, not by `payment_type` ascending); and the
rounded percentages sum to 100 within ±0.05 per output row (±0.1 only
holds for at most two distinct types). -/
theorem payment_data_spec (types : List String) (h : types ≠ []) :
    ((payment_data types).map fun x => x.2.1).sum = types.length ∧
    (payment_data types).Pairwise (fun a b => b.2.1 ≤ a.2.1) ∧
    |((payment_data types).map fun x => x.2.2).sum - 100|
      ≤ ((payment_data types).length : ℚ) / 20 := by
  have hsum : ((value_counts types).map fun kv => kv.2).sum = types.length :=
    value_counts_sum types
  have hlenpos : 0 < types.length := List.length_pos.mpr h
  have hcounts : (payment_data types).map (fun x => x.2.1)
      = (value_counts types).map fun kv => kv.2 := by
    simp only [payment_data, List.map_map]
    rfl
  have hlen : (payment_data types).length = (value_counts types).length := by
    simp only [payment_data, List.length_map]
  refine ⟨by rw [hcounts, hsum], ?_, ?_⟩
  · have hp : (value_counts types).Pairwise
        (fun x y => ((y.2 : Nat) : Int) ≤ ((x.2 : Nat) : Int)) := by
      rw [value_counts]
      exact sort_values_desc_pairwise _ _
    have hpd : payment_data types
        = (value_counts types).map fun kv =>
            (kv.1, kv.2, roundTo1 ((kv.2 : ℚ)
              / ((((value_counts types).map fun kv => kv.2).sum : Nat) : ℚ) * 100)) := by
      simp only [payment_data]
    rw [hpd, List.pairwise_map]
    exact hp.imp fun hab => by exact_mod_cast hab
  · set T : ℚ := ((((value_counts types).map fun kv => kv.2).sum : Nat) : ℚ) with hTdef
    have hT : T = (types.length : ℚ) := by
      rw [hTdef]
      exact_mod_cast congrArg (fun n : Nat => (n : ℚ)) hsum
    have hTne : T ≠ 0 := by
      rw [hT]
      exact_mod_cast Nat.pos_iff_ne_zero.mp hlenpos
    have hpcts : (payment_data types).map (fun x => x.2.2)
        = ((value_counts types).map fun kv => (kv.2 : ℚ) / T * 100).map roundTo1 := by
      simp only [payment_data, List.map_map]
      rfl
    have hxs : ((value_counts types).map fun kv => (kv.2 : ℚ) / T * 100)
        = ((value_counts types).map fun kv => kv.2).map
            fun c : Nat => (c : ℚ) / T * 100 := by
      rw [List.map_map]
      rfl
    have hsum100 : ((value_counts types).map fun kv => (kv.2 : ℚ) / T * 100).sum
        = 100 := by
      rw [hxs]
      exact map_div_mul_sum _ T hTne (by rw [hsum, hT])
    have hclose := sum_map_roundTo1_close
      ((value_counts types).map fun kv => (kv.2 : ℚ) / T * 100)
    rw [hsum100] at hclose
    have hlen2 : ((value_counts types).map fun kv => (kv.2 : ℚ) / T * 100).length
        = (payment_data types).length := by
      rw [List.length_map, hlen]
    rw [hpcts, ← hlen2]
    exact hclose

/-- C10 witness: the two-type input has counts summing to its row count,
a non-increasing count ordering, and percentages within the per-row
bound. -/
theorem payment_data_spec_w :
    ((payment_data ["credit", "voucher"]).map fun x => x.2.1).sum
      = (["credit", "voucher"] : List String).length ∧
    (payment_data ["credit", "voucher"]).Pairwise (fun a b => b.2.1 ≤ a.2.1) ∧
    |((payment_data ["credit", "voucher"]).map fun x => x.2.2).sum - 100|
      ≤ ((payment_data ["credit", "voucher"]).length : ℚ) / 20 :=
  payment_data_spec ["credit", "voucher"] (by decide)
